import Mathlib

/-!
Verification of the CEROS serial framing protocol (`src/protocol.rs`).

The development shallowly embeds the Rust module into Lean:

* `DataType`, `CEROSSerial` mirror the Rust types (the generic transport
  parameter `T : Read + Write` is instantiated with the scripted transport
  `MockStream`, which records write calls and plays back read results).
* Bytes are modelled as `Nat` values; all byte constants are below 256.
* The external `corncobs` crate (COBS encoding, the trusted self-delimiting
  encoding primitive) is modelled by `encode_buf` / `decode_buf` /
  `max_encoded_len`, following the crate's conventions: encoded frames end
  in a zero terminator byte, `decode_buf` requires that terminator (input
  exhausted before the terminator is the `Truncated` error, a zero byte
  inside a run is the `Corrupt` error, both modelled as `none`), and
  `max_encoded_len n = n + n / 254 + 2` is the worst-case encoded size
  including the terminator.
* Fallible operations return `Option` / `Outcome`: a Rust panic caused by
  `.unwrap()` or an out-of-bounds index is modelled as `Option.none`
  (respectively `Outcome.crashed`), and a read loop whose scripted transport
  runs out of data is `Outcome.blocked` (the real transport would block
  forever).
-/

/-- The message category enumeration of `protocol.rs` (`#[repr(u8)]`). -/
inductive DataType : Type where
  | Print
  | Error
  | KernelLog
deriving DecidableEq, Repr

/-- The `#[repr(u8)]` discriminant of `DataType` (`data_type as u8`). -/
def DataType.code : DataType → Nat
  | .Print => 0x00
  | .Error => 0x01
  | .KernelLog => 0x02

/-- Scripted transport instantiating the `T : Read + Write` parameter.
`reads` holds the successive results of `stream.read` calls (`none` is an
I/O error, `some c` delivers the bytes `c` into the caller's buffer);
`writes` logs the byte sequences passed to `stream.write`; `writeResults`
holds the successive results of `stream.write` calls (`none` is an I/O
error, `some n` reports `n` bytes accepted). -/
structure MockStream : Type where
  reads : List (Option (List Nat))
  writes : List (List Nat)
  writeResults : List (Option Nat)
deriving DecidableEq, Repr

/-- The framer state: `struct CEROSSerial<T> { stream, buffer, pros_compat }`. -/
structure CEROSSerial : Type where
  stream : MockStream
  buffer : List Nat
  pros_compat : Bool
deriving DecidableEq, Repr

/-- ASCII bytes of the PROS tag `b"sout"`. -/
def soutTag : List Nat := [0x73, 0x6F, 0x75, 0x74]

/-- ASCII bytes of the PROS tag `b"serr"`. -/
def serrTag : List Nat := [0x73, 0x65, 0x72, 0x72]

/-- ASCII bytes of the PROS tag `b"kdbg"`. -/
def kdbgTag : List Nat := [0x6B, 0x64, 0x62, 0x67]

/-- The CEROS native magic number `[0x37, 0x31, 0x32, 0x32]`. -/
def cerosMagic : List Nat := [0x37, 0x31, 0x32, 0x32]

/-- `corncobs::max_encoded_len`: worst-case COBS-encoded size of an
`n`-byte message, including the overhead byte every 254 bytes, the initial
overhead byte, and the trailing zero terminator. -/
def max_encoded_len (n : Nat) : Nat := n + n / 254 + 2

/-- COBS encoder worker. `run` is the block of (nonzero) bytes accumulated
for the current COBS block (always at most 253 bytes long); the second
argument is the remaining input. Emits `code :: block` groups and a final
zero terminator, exactly as `corncobs::encode_buf` writes them:
a zero input byte closes the current block, a block reaching 254 bytes is
emitted with code 0xFF and the encoder continues with an empty block, and
the end of input closes the final block and appends the terminator. -/
def encode_buf_aux : List Nat → List Nat → List Nat
  | run, [] => ((run.length + 1) :: run) ++ [0]
  | run, b :: rest =>
    if b = 0 then
      ((run.length + 1) :: run) ++ encode_buf_aux [] rest
    else if run.length = 253 then
      (255 :: (run ++ [b])) ++ encode_buf_aux [] rest
    else
      encode_buf_aux (run ++ [b]) rest

/-- `corncobs::encode_buf`: COBS-encode a message, terminator included. -/
def encode_buf (l : List Nat) : List Nat := encode_buf_aux [] l

/-- COBS decoder worker, modelling `corncobs::decode_buf`.
`rem` counts the data bytes still owed by the current block's code byte and
`pending` records whether an implicit zero separates the previous block
from the next one (code byte below 0xFF). Input exhausted before the zero
terminator is the `Truncated` error, and a zero byte where block data was
promised is the `Corrupt` error; both are `none`. Decoding stops at the
terminator, ignoring any bytes after it. -/
def decode_buf_aux : Nat → Bool → List Nat → Option (List Nat)
  | _, _, [] => none
  | 0, pending, b :: rest =>
    if b = 0 then
      some []
    else
      match decode_buf_aux (b - 1) (b != 255) rest with
      | none => none
      | some t => some ((if pending then [0] else []) ++ t)
  | rem + 1, pending, b :: rest =>
    if b = 0 then
      none
    else
      match decode_buf_aux rem pending rest with
      | none => none
      | some t => some (b :: t)

/-- `corncobs::decode_buf`: COBS-decode one terminator-ended frame. -/
def decode_buf (l : List Nat) : Option (List Nat) := decode_buf_aux 0 false l

/-- `CEROSSerial::create_serial_packet`. Selects the header from
`self.pros_compat` and the category (the PROS branch's `_ =>` arm returning
an empty vector is unreachable: the three-constructor match is total),
appends the payload, COBS-encodes into a zero-initialised buffer of length
`max_encoded_len(packet.len())`, and returns that whole buffer — the
returned size `_size` of `corncobs::encode_buf` is discarded, so the
buffer keeps its worst-case length, zero-padded past the actual encoding. -/
def create_serial_packet (s : CEROSSerial) (data_type : DataType) (data : List Nat) :
    List Nat :=
  let prepend : List Nat :=
    if s.pros_compat then
      match data_type with
      | .Print => soutTag
      | .Error => serrTag
      | .KernelLog => kdbgTag
    else
      cerosMagic ++ [data_type.code]
  let packet := prepend ++ data
  ((encode_buf packet) ++ List.replicate (max_encoded_len packet.length) 0).take
    (max_encoded_len packet.length)

/-- `CEROSSerial::parse_serial_packet`. COBS-decodes the input
(`unwrap_or(0)` turns a decode failure into the empty message), then sniffs
the header: the three PROS ASCII tags, then the CEROS magic. In the magic
branch the Rust code indexes `data[4]`; when the decoded data is exactly
the four magic bytes that index is out of bounds and the method panics,
modelled as `none`. -/
def parse_serial_packet (s : CEROSSerial) (data : List Nat) :
    Option (DataType × List Nat) :=
  let decoded := (decode_buf data).getD []
  if soutTag.isPrefixOf decoded then
    some (.Print, decoded.drop 4)
  else if serrTag.isPrefixOf decoded then
    some (.Error, decoded.drop 4)
  else if kdbgTag.isPrefixOf decoded then
    some (.KernelLog, decoded.drop 4)
  else if cerosMagic.isPrefixOf decoded then
    match decoded.get? 4 with
    | none => none
    | some 0x00 => some (.Print, decoded.drop 5)
    | some 0x01 => some (.Error, decoded.drop 5)
    | some 0x02 => some (.KernelLog, decoded.drop 5)
    | some _ => some (.Print, [])
  else
    some (.Print, [])

/-- Result of a stateful framer operation. `ok` carries the Rust return
value; `crashed` models a Rust panic (an `.unwrap()` that observed `Err`,
or an out-of-bounds index); `blocked` models the call blocking forever
because the scripted transport has no further read results (or write
results). -/
inductive Outcome (α : Type) : Type where
  | ok (val : α)
  | crashed
  | blocked
deriving DecidableEq, Repr

/-- The accumulation loop of `CEROSSerial::read_data`:
`while !self.buffer.contains(&0x00)` perform one `stream.read` into a
255-byte stack buffer and append the returned bytes. A read result is
truncated to 255 bytes because the Rust transport writes into the 255-byte
buffer `[0u8; 0xff]`. Returns the buffer once it contains a zero, together
with the unconsumed remainder of the read script. -/
def read_loop : List (Option (List Nat)) → List Nat →
    Outcome (List Nat × List (Option (List Nat)))
  | [], buffer =>
    if buffer.contains 0 then .ok (buffer, []) else .blocked
  | none :: rest, buffer =>
    if buffer.contains 0 then .ok (buffer, none :: rest) else .crashed
  | some c :: rest, buffer =>
    if buffer.contains 0 then .ok (buffer, some c :: rest)
    else read_loop rest (buffer ++ c.take 255)

/-- `CEROSSerial::read_data`. Runs the accumulation loop, splits the buffer
at the first zero byte (`position(|&r| r == 0x00)`, modelled by
`List.findIdx`), drains the bytes before the zero as the raw frame, pops
one leading byte (the delimiter) from the remaining buffer when that
remainder is non-empty, and parses the raw frame. Note the drained frame
does not include the zero terminator. -/
def read_data (s : CEROSSerial) : Outcome ((DataType × List Nat) × CEROSSerial) :=
  match read_loop s.stream.reads s.buffer with
  | .blocked => .blocked
  | .crashed => .crashed
  | .ok (buf, restReads) =>
    let pos := buf.findIdx (· == 0)
    let data := buf.take pos
    let rest := buf.drop pos
    let buffer' := if rest.isEmpty then rest else rest.drop 1
    let s' : CEROSSerial :=
      { s with buffer := buffer', stream := { s.stream with reads := restReads } }
    match parse_serial_packet s' data with
    | none => .crashed
    | some r => .ok (r, s')

/-- `CEROSSerial::write_data`. Builds the packet with
`create_serial_packet` and performs exactly one `stream.write` with it,
returning whatever count the transport reported (`.unwrap()` on the write
result: an `Err` panics, modelled as `crashed`). -/
def write_data (s : CEROSSerial) (data_type : DataType) (data : List Nat) :
    Outcome (Nat × CEROSSerial) :=
  let packet := create_serial_packet s data_type data
  match s.stream.writeResults with
  | [] => .blocked
  | none :: _ => .crashed
  | some n :: restResults =>
    .ok (n, { s with stream :=
      { s.stream with
        writes := s.stream.writes ++ [packet],
        writeResults := restResults } })

/-! ## Helper lemmas about the COBS model and the codec -/

/-- Header selected by `create_serial_packet`, as one function, for stating
lemmas about the encoder input. `create_serial_packet` prepends exactly
these bytes. -/
def packetHeader (s : CEROSSerial) (data_type : DataType) : List Nat :=
  if s.pros_compat then
    match data_type with
    | .Print => soutTag
    | .Error => serrTag
    | .KernelLog => kdbgTag
  else
    cerosMagic ++ [data_type.code]
theorem decode_run_copy (run : List Nat) (p : Bool) (rest : List Nat)
    (h : ∀ b ∈ run, b ≠ 0) :
    decode_buf_aux run.length p (run ++ rest) =
      (decode_buf_aux 0 p rest).map (fun t => run ++ t) := by
  induction run with
  | nil =>
    simp only [List.length_nil, List.nil_append]
    cases decode_buf_aux 0 p rest <;> simp
  | cons a as ih =>
    have ha : a ≠ 0 := h a (by simp)
    have has : ∀ b ∈ as, b ≠ 0 := fun b hb => h b (by simp [hb])
    simp only [List.length_cons, List.cons_append]
    show decode_buf_aux (Nat.succ as.length) p (a :: (as ++ rest)) = _
    rw [decode_buf_aux.eq_3, if_neg ha, ih has]
    cases decode_buf_aux 0 p rest <;> simp

theorem decode_encode_aux (l : List Nat) :
    ∀ (run : List Nat) (p : Bool) (junk : List Nat),
      (∀ b ∈ run, b ≠ 0) → run.length ≤ 253 →
      decode_buf_aux 0 p (encode_buf_aux run l ++ junk) =
        some ((if p then [0] else []) ++ (run ++ l)) := by
  induction l with
  | nil =>
    intro run p junk hrun hlen
    rw [encode_buf_aux.eq_1]
    simp only [List.cons_append, List.append_assoc, List.singleton_append]
    rw [decode_buf_aux.eq_2, if_neg (Nat.succ_ne_zero run.length)]
    simp only [Nat.add_sub_cancel]
    rw [decode_run_copy run _ _ hrun]
    rw [decode_buf_aux.eq_2, if_pos rfl]
    simp
  | cons b rest ih =>
    intro run p junk hrun hlen
    by_cases hb : b = 0
    · subst hb
      rw [encode_buf_aux.eq_2, if_pos rfl]
      simp only [List.cons_append, List.append_assoc]
      rw [decode_buf_aux.eq_2, if_neg (Nat.succ_ne_zero run.length)]
      simp only [Nat.add_sub_cancel]
      rw [decode_run_copy run _ _ hrun]
      have hb255 : ((run.length + 1 : Nat) != 255) = true := by
        rw [bne_iff_ne]
        omega
      rw [hb255, ih [] true junk (by simp) (by simp)]
      simp
    · by_cases h253 : run.length = 253
      · rw [encode_buf_aux.eq_2, if_neg hb, if_pos h253]
        simp only [List.cons_append, List.append_assoc]
        rw [decode_buf_aux.eq_2, if_neg (by norm_num : (255 : Nat) ≠ 0)]
        have hrun' : ∀ x ∈ run ++ [b], x ≠ 0 := by
          intro x hx
          rcases List.mem_append.1 hx with hx | hx
          · exact hrun x hx
          · simp at hx; subst hx; exact hb
        have h254 : (255 : Nat) - 1 = (run ++ [b]).length := by
          simp [h253]
        have hfalse : ((255 : Nat) != 255) = false := rfl
        have hassoc : run ++ b :: ([] ++ (encode_buf_aux [] rest ++ junk)) =
            (run ++ [b]) ++ (encode_buf_aux [] rest ++ junk) := by
          simp
        rw [h254, hfalse, hassoc, decode_run_copy (run ++ [b]) _ _ hrun']
        rw [ih [] false junk (by simp) (by simp)]
        simp
      · rw [encode_buf_aux.eq_2, if_neg hb, if_neg h253]
        have hrun' : ∀ x ∈ run ++ [b], x ≠ 0 := by
          intro x hx
          rcases List.mem_append.1 hx with hx | hx
          · exact hrun x hx
          · simp at hx; subst hx; exact hb
        have hlen' : (run ++ [b]).length ≤ 253 := by
          simp only [List.length_append, List.length_cons, List.length_nil]
          omega
        rw [ih (run ++ [b]) p junk hrun' hlen']
        simp

theorem decode_encode_append (l junk : List Nat) :
    decode_buf (encode_buf l ++ junk) = some l := by
  have h := decode_encode_aux l [] false junk (by simp) (by simp)
  simpa [decode_buf, encode_buf] using h

theorem encode_aux_length (l : List Nat) :
    ∀ run : List Nat,
      (encode_buf_aux run l).length ≤
        run.length + l.length + (run.length + l.length) / 254 + 2 := by
  induction l with
  | nil =>
    intro run
    rw [encode_buf_aux.eq_1]
    simp only [List.length_append, List.length_cons, List.length_singleton,
      List.length_nil]
    omega
  | cons b rest ih =>
    intro run
    by_cases hb : b = 0
    · subst hb
      rw [encode_buf_aux.eq_2, if_pos rfl]
      simp only [List.length_append, List.length_cons, List.length_nil]
      have h1 := ih []
      simp only [List.length_nil, Nat.zero_add] at h1
      have h2 : rest.length / 254 ≤ (run.length + (rest.length + 1)) / 254 :=
        Nat.div_le_div_right (by omega)
      omega
    · by_cases h253 : run.length = 253
      · rw [encode_buf_aux.eq_2, if_neg hb, if_pos h253]
        simp only [List.length_append, List.length_cons, List.length_nil]
        have h1 := ih []
        simp only [List.length_nil, Nat.zero_add] at h1
        have h2 : run.length + (rest.length + 1) = rest.length + 254 := by
          omega
        rw [h2, Nat.add_div_right _ (by norm_num)]
        omega
      · rw [encode_buf_aux.eq_2, if_neg hb, if_neg h253]
        have h1 := ih (run ++ [b])
        simp only [List.length_append, List.length_cons, List.length_nil] at h1
        have h2 : run.length + 1 + rest.length = run.length + (rest.length + 1) := by
          omega
        rw [h2] at h1
        simp only [List.length_cons]
        omega

theorem encode_length_le (l : List Nat) :
    (encode_buf l).length ≤ max_encoded_len l.length := by
  have h := encode_aux_length l []
  simpa [encode_buf, max_encoded_len] using h

theorem encode_aux_zeros (l : List Nat) :
    ∀ run : List Nat, (∀ b ∈ run, b ≠ 0) →
      ∃ pre, encode_buf_aux run l = pre ++ [0] ∧ ∀ b ∈ pre, b ≠ 0 := by
  induction l with
  | nil =>
    intro run hrun
    refine ⟨(run.length + 1) :: run, by rw [encode_buf_aux.eq_1], ?_⟩
    intro b hb
    rcases List.mem_cons.1 hb with hb | hb
    · omega
    · exact hrun b hb
  | cons b rest ih =>
    intro run hrun
    by_cases hb : b = 0
    · subst hb
      obtain ⟨pre, hpre, h0⟩ := ih [] (by simp)
      refine ⟨((run.length + 1) :: run) ++ pre, ?_, ?_⟩
      · rw [encode_buf_aux.eq_2, if_pos rfl, hpre]
        simp
      · intro x hx
        rcases List.mem_append.1 hx with hx | hx
        · rcases List.mem_cons.1 hx with hx | hx
          · omega
          · exact hrun x hx
        · exact h0 x hx
    · by_cases h253 : run.length = 253
      · obtain ⟨pre, hpre, h0⟩ := ih [] (by simp)
        refine ⟨(255 :: (run ++ [b])) ++ pre, ?_, ?_⟩
        · rw [encode_buf_aux.eq_2, if_neg hb, if_pos h253, hpre]
          simp
        · intro x hx
          rcases List.mem_append.1 hx with hx | hx
          · rcases List.mem_cons.1 hx with hx | hx
            · omega
            · rcases List.mem_append.1 hx with hx | hx
              · exact hrun x hx
              · simp at hx; subst hx; exact hb
          · exact h0 x hx
      · have hrun' : ∀ x ∈ run ++ [b], x ≠ 0 := by
          intro x hx
          rcases List.mem_append.1 hx with hx | hx
          · exact hrun x hx
          · simp at hx; subst hx; exact hb
        obtain ⟨pre, hpre, h0⟩ := ih (run ++ [b]) hrun'
        refine ⟨pre, ?_, h0⟩
        rw [encode_buf_aux.eq_2, if_neg hb, if_neg h253, hpre]

theorem encode_zeros (l : List Nat) :
    ∃ pre, encode_buf l = pre ++ [0] ∧ ∀ b ∈ pre, b ≠ 0 :=
  encode_aux_zeros l [] (by simp)

/-- `create_serial_packet` returns the encoded frame followed by the zero
padding left in the worst-case-sized output buffer. -/
theorem create_shape (s : CEROSSerial) (t : DataType) (P : List Nat) :
    create_serial_packet s t P =
      encode_buf (packetHeader s t ++ P) ++
        List.replicate
          (max_encoded_len (packetHeader s t ++ P).length -
            (encode_buf (packetHeader s t ++ P)).length) 0 := by
  have hle := encode_length_le (packetHeader s t ++ P)
  show ((encode_buf (packetHeader s t ++ P)) ++
      List.replicate (max_encoded_len (packetHeader s t ++ P).length) 0).take
        (max_encoded_len (packetHeader s t ++ P).length) = _
  rw [List.take_append_eq_append_take,
    List.take_of_length_le hle, List.take_replicate]
  congr 2
  omega

/-- Dropping the four header bytes of a parsed compat frame. -/
theorem drop4_cons (a b c d : Nat) (P : List Nat) :
    List.drop 4 (a :: b :: c :: d :: P) = P := rfl

/-- Dropping the five header bytes of a parsed native frame. -/
theorem drop5_cons (a b c d e : Nat) (P : List Nat) :
    List.drop 5 (a :: b :: c :: d :: e :: P) = P := rfl

/-- Reading the category byte of a parsed native frame. -/
theorem get4_cons (a b c d e : Nat) (P : List Nat) :
    (a :: b :: c :: d :: e :: P).get? 4 = some e := rfl

/-- Core round trip: parsing an encoded packet, with any framer state on
either side, recovers the category and the payload. -/
theorem parse_create_aux (s q : CEROSSerial) (t : DataType) (P : List Nat) :
    parse_serial_packet q (create_serial_packet s t P) = some (t, P) := by
  have hdec : decode_buf (create_serial_packet s t P) =
      some (packetHeader s t ++ P) := by
    rw [create_shape]
    exact decode_encode_append _ _
  rw [parse_serial_packet]
  rw [hdec]
  simp only [Option.getD_some]
  cases hpc : s.pros_compat <;> cases t <;>
    simp [packetHeader, hpc, soutTag, serrTag, kdbgTag, cerosMagic,
      DataType.code, List.isPrefixOf, drop4_cons, drop5_cons, get4_cons]

/-- The accumulation loop returns at once when the buffer already holds a
zero byte. -/
theorem read_loop_stop (reads : List (Option (List Nat))) (buffer : List Nat)
    (h : buffer.contains 0 = true) :
    read_loop reads buffer = .ok (buffer, reads) := by
  have hmem : (0 : Nat) ∈ buffer := by simpa using h
  cases reads with
  | nil => simp [read_loop, hmem]
  | cons r rest => cases r <;> simp [read_loop, hmem]

/-- One iteration of the accumulation loop: with no zero byte buffered, a
successful read appends at most 255 delivered bytes and the loop runs
again (in particular an empty read just reads again). -/
theorem read_loop_step (c : List Nat) (rest : List (Option (List Nat)))
    (buffer : List Nat) (h : buffer.contains 0 = false) :
    read_loop (some c :: rest) buffer = read_loop rest (buffer ++ c.take 255) := by
  have hmem : (0 : Nat) ∉ buffer := by simpa using h
  simp [read_loop, hmem]

/-- The accumulation loop terminates with a result as soon as the bytes
delivered by the transport contain a zero byte. -/
theorem read_loop_terminates (chunks : List (List Nat)) :
    ∀ buffer : List Nat,
      (buffer ++ (chunks.map (fun c => c.take 255)).flatten).contains 0 = true →
      ∃ res, read_loop (chunks.map (fun c => some c)) buffer = .ok res := by
  induction chunks with
  | nil =>
    intro buffer h
    simp only [List.map_nil, List.flatten_nil, List.append_nil] at h
    exact ⟨(buffer, []), read_loop_stop _ _ h⟩
  | cons c cs ih =>
    intro buffer h
    cases hb : buffer.contains 0 with
    | true =>
      exact ⟨(buffer, (c :: cs).map (fun c => some c)), read_loop_stop _ _ hb⟩
    | false =>
      simp only [List.map_cons]
      rw [read_loop_step c _ _ hb]
      apply ih
      simp only [List.map_cons, List.flatten_cons, ← List.append_assoc] at h
      exact h

/-! ## Claims -/

/-- C1: for every category, every payload (empty and zero-containing
included) and both wire-format variants, parsing the bytes produced by
`create_serial_packet` yields exactly the original category and a
byte-for-byte equal payload. -/
theorem create_parse_round_trip (s : CEROSSerial) (t : DataType) (P : List Nat) :
    parse_serial_packet s (create_serial_packet s t P) = some (t, P) :=
  parse_create_aux s s t P

/-- C2 (evaluation of the failing scenario): the delivered byte stream is
exactly `create_serial_packet(Error, [0x41]) ++
create_serial_packet(KernelLog, [0x42])` split into three chunks, yet both
`read_data` calls return `(Print, [])` instead of the two original pairs:
`read_data` drains the raw frame without its zero terminator, so the COBS
decode inside `parse_serial_packet` fails (`Truncated`) and `unwrap_or(0)`
degrades every frame to the empty `Print` result. The buffer bookkeeping
itself is correct: the first call leaves exactly the second frame's
already-read bytes buffered. -/
theorem read_data_returns_empty_frames :
    ([7, 55, 49, 50, 50] ++ [1, 65, 0, 7, 55, 49] ++ [50, 50, 2, 66, 0] : List Nat) =
      create_serial_packet ⟨⟨[], [], []⟩, [], false⟩ .Error [65] ++
        create_serial_packet ⟨⟨[], [], []⟩, [], false⟩ .KernelLog [66] ∧
    read_data ⟨⟨[some [7, 55, 49, 50, 50], some [1, 65, 0, 7, 55, 49],
        some [50, 50, 2, 66, 0]], [], []⟩, [], false⟩ =
      .ok ((.Print, []), ⟨⟨[some [50, 50, 2, 66, 0]], [], []⟩, [7, 55, 49], false⟩) ∧
    read_data ⟨⟨[some [50, 50, 2, 66, 0]], [], []⟩, [7, 55, 49], false⟩ =
      .ok ((.Print, []), ⟨⟨[], [], []⟩, [], false⟩) := by
  decide

/-- C3 (evaluation at the failing input): the claim says
`parse_serial_packet` never panics, but on the well-formed COBS frame
`[0x05, 0x37, 0x31, 0x32, 0x32, 0x00]` — which decodes to exactly the
four magic bytes — the Rust code indexes `data[4]` out of bounds and
panics (modelled as `none`). -/
theorem parse_panics_on_bare_magic :
    parse_serial_packet ⟨⟨[], [], []⟩, [], false⟩ [5, 55, 49, 50, 50, 0] = none := by
  decide

/-- C4 (evaluation at the failing input): when the transport reports a
read (resp. write) error, `read_data` (resp. `write_data`) does not return
a distinguishable error value — the `.unwrap()` panics and the process
aborts, modelled as `Outcome.crashed`. -/
theorem transport_error_panics :
    read_data ⟨⟨[none], [], []⟩, [], false⟩ = .crashed ∧
    write_data ⟨⟨[], [], [none]⟩, [], false⟩ .Print [] = .crashed := by
  decide

set_option maxRecDepth 4000 in
/-- C5 counterexample: for the native-mode packet of category `Error` and
the 249-byte payload `0x00 :: 0x41^248` (packet length 254), the returned
buffer has length `max_encoded_len 254 = 257` but the actual COBS encoding
is only 256 bytes, so the output ends in two zero bytes — the frame
terminator followed by one padding zero — refuting the claim that the
single trailing delimiter is the only zero byte. -/
theorem create_padding_zeros_counterexample :
    (create_serial_packet ⟨⟨[], [], []⟩, [], false⟩ .Error
        (0 :: List.replicate 248 65)).count 0 = 2 ∧
    (create_serial_packet ⟨⟨[], [], []⟩, [], false⟩ .Error
        (0 :: List.replicate 248 65)).length = 257 := by
  decide

/-- C5 as amended: for every variant, category and payload, every zero
byte of `create_serial_packet`'s output belongs to a non-empty trailing
run of zeros (the frame's delimiter followed by the zero padding of the
worst-case-sized buffer); no zero byte is followed by a nonzero byte. -/
theorem create_zeros_only_trailing (s : CEROSSerial) (t : DataType) (P : List Nat) :
    ∃ pre k, 1 ≤ k ∧ (∀ b ∈ pre, b ≠ 0) ∧
      create_serial_packet s t P = pre ++ List.replicate k 0 := by
  obtain ⟨pre, hpre, h0⟩ := encode_zeros (packetHeader s t ++ P)
  refine ⟨pre,
    (max_encoded_len (packetHeader s t ++ P).length -
      (encode_buf (packetHeader s t ++ P)).length) + 1, by omega, h0, ?_⟩
  rw [create_shape, hpre]
  simp [List.replicate_succ, List.append_assoc]

/-- C6: `parse_serial_packet` does not depend on the framer's
`pros_compat` flag — any two framer states parse any input identically —
and in particular a frame encoded by a framer of either variant is decoded
correctly by a framer of either variant. -/
theorem parse_variant_independent :
    (∀ (q r : CEROSSerial) (d : List Nat),
        parse_serial_packet q d = parse_serial_packet r d) ∧
    (∀ (enc dec : CEROSSerial) (t : DataType) (P : List Nat),
        parse_serial_packet dec (create_serial_packet enc t P) = some (t, P)) :=
  ⟨fun _ _ _ => rfl, fun enc dec t P => parse_create_aux enc dec t P⟩

/-- C7: the accumulation loop of `read_data` returns as soon as the buffer
contains a zero byte; while it does not, a successful read appends the
delivered bytes (at most 255 per iteration, and an empty read just loops
again) and continues; and the loop terminates with a result whenever the
transport's deliveries eventually supply a zero byte. -/
theorem read_loop_accumulates :
    (∀ (reads : List (Option (List Nat))) (buffer : List Nat),
        buffer.contains 0 = true → read_loop reads buffer = .ok (buffer, reads)) ∧
    (∀ (c : List Nat) (rest : List (Option (List Nat))) (buffer : List Nat),
        buffer.contains 0 = false →
        read_loop (some c :: rest) buffer = read_loop rest (buffer ++ c.take 255) ∧
          (c.take 255).length ≤ 255) ∧
    (∀ (chunks : List (List Nat)) (buffer : List Nat),
        (buffer ++ (chunks.map (fun c => c.take 255)).flatten).contains 0 = true →
        ∃ res, read_loop (chunks.map (fun c => some c)) buffer = .ok res) :=
  ⟨read_loop_stop,
    fun c rest buffer h =>
      ⟨read_loop_step c rest buffer h, by rw [List.length_take]; omega⟩,
    fun chunks buffer h => read_loop_terminates chunks buffer h⟩

/-- Witness for C7 at concrete inputs: a buffered zero returns at once, an
empty read loops again, and a delivered zero terminates the loop. -/
theorem read_loop_accumulates_witness :
    read_loop [] [0] = .ok ([0], []) ∧
    (read_loop [some []] [1] = read_loop [] ([1] ++ List.take 255 []) ∧
      (List.take 255 ([] : List Nat)).length ≤ 255) ∧
    (∃ res, read_loop ([[2, 0]].map (fun c => some c)) [] = .ok res) :=
  ⟨read_loop_accumulates.1 [] [0] (by decide),
    read_loop_accumulates.2.1 [] [] [1] (by decide),
    read_loop_accumulates.2.2 [[2, 0]] [] (by decide)⟩

/-- C8: `write_data` builds the frame with `create_serial_packet`, issues
exactly one write call with those bytes (one entry appended to the write
log, one write result consumed), and returns exactly the count the
transport reported, with no retry of short writes. -/
theorem write_data_single_write (s : CEROSSerial) (t : DataType) (d : List Nat)
    (n : Nat) (rest : List (Option Nat))
    (h : s.stream.writeResults = some n :: rest) :
    write_data s t d =
      .ok (n, { s with stream :=
        { s.stream with
          writes := s.stream.writes ++ [create_serial_packet s t d],
          writeResults := rest } }) := by
  simp only [write_data, h]

/-- Witness for C8: a concrete write whose transport reports 3 bytes
accepted (a short write, returned as-is). -/
theorem write_data_single_write_witness :
    write_data ⟨⟨[], [], [some 3]⟩, [], false⟩ .Error [65] =
      .ok (3, ⟨⟨[], [[7, 55, 49, 50, 50, 1, 65, 0]], []⟩, [], false⟩) :=
  (write_data_single_write ⟨⟨[], [], [some 3]⟩, [], false⟩ .Error [65] 3 [] rfl).trans
    (by decide)

/-- C9 counterexample: a `write_data` call leaves the buffer and the
variant flag unchanged but does mutate the `stream` field (the transport
records the write and consumes a write result), refuting the summary that
the accumulation buffer is the only field any operation mutates. -/
theorem write_data_mutates_stream :
    write_data ⟨⟨[], [], [some 3]⟩, [], false⟩ .Print [] =
      .ok (3, ⟨⟨[], [[5, 55, 49, 50, 50, 1, 0]], []⟩, [], false⟩) ∧
    (⟨[], [[5, 55, 49, 50, 50, 1, 0]], []⟩ : MockStream) ≠ ⟨[], [], [some 3]⟩ := by
  decide

/-- C9 as amended: the codec functions read no framer state beyond the
variant flag (`create_serial_packet` depends only on `pros_compat`,
`parse_serial_packet` on nothing); `write_data` never modifies the
accumulation buffer, the variant flag or the transport's read side; and
`read_data` never modifies the variant flag or the transport's write side.
Only the buffer and the transport stream are ever mutated. -/
theorem state_mutation_discipline :
    (∀ (q r : CEROSSerial) (t : DataType) (d : List Nat),
        q.pros_compat = r.pros_compat →
        create_serial_packet q t d = create_serial_packet r t d) ∧
    (∀ (q r : CEROSSerial) (d : List Nat),
        parse_serial_packet q d = parse_serial_packet r d) ∧
    (∀ (s : CEROSSerial) (t : DataType) (d : List Nat) (n : Nat)
        (s2 : CEROSSerial),
        write_data s t d = .ok (n, s2) →
        s2.buffer = s.buffer ∧ s2.pros_compat = s.pros_compat ∧
          s2.stream.reads = s.stream.reads) ∧
    (∀ (s : CEROSSerial) (r : (DataType × List Nat) × CEROSSerial),
        read_data s = .ok r →
        r.2.pros_compat = s.pros_compat ∧
          r.2.stream.writes = s.stream.writes ∧
          r.2.stream.writeResults = s.stream.writeResults) := by
  refine ⟨?_, fun _ _ _ => rfl, ?_, ?_⟩
  · intro q r t d h
    simp only [create_serial_packet, h]
  · intro s t d n s2 h
    cases hw : s.stream.writeResults with
    | nil =>
      rw [write_data.eq_def, hw] at h
      exact Outcome.noConfusion h
    | cons w rest =>
      cases w with
      | none =>
        rw [write_data.eq_def, hw] at h
        exact Outcome.noConfusion h
      | some m =>
        simp only [write_data, hw, Outcome.ok.injEq, Prod.mk.injEq] at h
        obtain ⟨-, hs⟩ := h
        subst hs
        exact ⟨rfl, rfl, rfl⟩
  · intro s r h
    simp only [read_data] at h
    cases hloop : read_loop s.stream.reads s.buffer with
    | blocked => rw [hloop] at h; simp at h
    | crashed => rw [hloop] at h; simp at h
    | ok p =>
      rw [hloop] at h
      obtain ⟨buf, restReads⟩ := p
      simp only at h
      cases hp : parse_serial_packet
          { s with
            buffer :=
              if (buf.drop (buf.findIdx (· == 0))).isEmpty then
                buf.drop (buf.findIdx (· == 0))
              else (buf.drop (buf.findIdx (· == 0))).drop 1,
            stream := { s.stream with reads := restReads } }
          (buf.take (buf.findIdx (· == 0))) with
      | none => rw [hp] at h; simp at h
      | some v =>
        rw [hp] at h
        simp only [Outcome.ok.injEq] at h
        subst h
        exact ⟨rfl, rfl, rfl⟩

/-- Witness for C9 as amended, at concrete states: two framers differing
in everything but the flag build the same packet and parse alike; a
concrete successful write preserves buffer, flag and read side; a concrete
successful read preserves flag and write side. -/
theorem state_mutation_discipline_witness :
    create_serial_packet ⟨⟨[], [], []⟩, [], false⟩ .Print [] =
      create_serial_packet ⟨⟨[some [0]], [[1]], [some 2]⟩, [9], false⟩ .Print [] ∧
    parse_serial_packet ⟨⟨[], [], []⟩, [], false⟩ [] =
      parse_serial_packet ⟨⟨[some [0]], [[1]], [some 2]⟩, [9], false⟩ [] ∧
    ((⟨⟨[], [[5, 55, 49, 50, 50, 1, 0]], []⟩, [], false⟩ : CEROSSerial).buffer =
        (⟨⟨[], [], [some 3]⟩, [], false⟩ : CEROSSerial).buffer ∧
      (⟨⟨[], [[5, 55, 49, 50, 50, 1, 0]], []⟩, [], false⟩ : CEROSSerial).pros_compat =
        (⟨⟨[], [], [some 3]⟩, [], false⟩ : CEROSSerial).pros_compat ∧
      (⟨⟨[], [[5, 55, 49, 50, 50, 1, 0]], []⟩, [], false⟩ : CEROSSerial).stream.reads =
        (⟨⟨[], [], [some 3]⟩, [], false⟩ : CEROSSerial).stream.reads) ∧
    (((DataType.Print, ([] : List Nat)),
        (⟨⟨[], [], []⟩, [], false⟩ : CEROSSerial)).2.pros_compat =
        (⟨⟨[some [1, 0]], [], []⟩, [], false⟩ : CEROSSerial).pros_compat ∧
      ((DataType.Print, ([] : List Nat)),
        (⟨⟨[], [], []⟩, [], false⟩ : CEROSSerial)).2.stream.writes =
        (⟨⟨[some [1, 0]], [], []⟩, [], false⟩ : CEROSSerial).stream.writes ∧
      ((DataType.Print, ([] : List Nat)),
        (⟨⟨[], [], []⟩, [], false⟩ : CEROSSerial)).2.stream.writeResults =
        (⟨⟨[some [1, 0]], [], []⟩, [], false⟩ : CEROSSerial).stream.writeResults) :=
  ⟨state_mutation_discipline.1 ⟨⟨[], [], []⟩, [], false⟩
      ⟨⟨[some [0]], [[1]], [some 2]⟩, [9], false⟩ .Print [] rfl,
    state_mutation_discipline.2.1 ⟨⟨[], [], []⟩, [], false⟩
      ⟨⟨[some [0]], [[1]], [some 2]⟩, [9], false⟩ [],
    state_mutation_discipline.2.2.1 ⟨⟨[], [], [some 3]⟩, [], false⟩ .Print [] 3
      ⟨⟨[], [[5, 55, 49, 50, 50, 1, 0]], []⟩, [], false⟩ (by decide),
    state_mutation_discipline.2.2.2 ⟨⟨[some [1, 0]], [], []⟩, [], false⟩
      ((.Print, ([] : List Nat)), ⟨⟨[], [], []⟩, [], false⟩) (by decide)⟩

/-- C10: `create_serial_packet` always returns a non-empty byte sequence;
in native mode its length is exactly `max_encoded_len (payload length + 5)`
— the worst-case encoded size, not the actual one — and
`max_encoded_len 5 = 7`, so an empty payload yields 7 bytes. -/
theorem create_length_exact :
    (∀ (s : CEROSSerial) (t : DataType) (P : List Nat),
        0 < (create_serial_packet s t P).length) ∧
    (∀ (s : CEROSSerial) (t : DataType) (P : List Nat),
        s.pros_compat = false →
        (create_serial_packet s t P).length = max_encoded_len (P.length + 5)) ∧
    max_encoded_len 5 = 7 := by
  have hlen : ∀ (s : CEROSSerial) (t : DataType) (P : List Nat),
      (create_serial_packet s t P).length =
        max_encoded_len (packetHeader s t ++ P).length := by
    intro s t P
    rw [create_shape]
    generalize packetHeader s t ++ P = m
    have hle := encode_length_le m
    simp only [List.length_append, List.length_replicate]
    omega
  refine ⟨?_, ?_, rfl⟩
  · intro s t P
    rw [hlen]
    unfold max_encoded_len
    omega
  · intro s t P h
    rw [hlen]
    have harg : (packetHeader s t ++ P).length = P.length + 5 := by
      simp only [packetHeader, h, if_neg Bool.false_ne_true, cerosMagic,
        List.length_append, List.length_cons, List.length_nil]
      omega
    rw [harg]

/-- Witness for C10 at a concrete native-mode framer and empty payload. -/
theorem create_length_exact_witness :
    0 < (create_serial_packet ⟨⟨[], [], []⟩, [], false⟩ .Print []).length ∧
    (create_serial_packet ⟨⟨[], [], []⟩, [], false⟩ .Print []).length =
      max_encoded_len (([] : List Nat).length + 5) :=
  ⟨create_length_exact.1 ⟨⟨[], [], []⟩, [], false⟩ .Print [],
    create_length_exact.2.1 ⟨⟨[], [], []⟩, [], false⟩ .Print [] rfl⟩
